import Mathlib

/-!
Verification of the `new_learning_abci` skill (rounds.py, behaviours.py) and of
the round-based consensus engine it instantiates.

The skill's own code (the `Event` enumeration, the `NewLearningAbciApp`
transition table and final states, the `SynchronizedData` accessors, and the
`PingBehaviour` IPFS round-trip) is embedded directly from the source.  The
generic engine it builds on (`CollectSameUntilThresholdRound` submission and
resolution, `AbciApp.advance`, the replicated database primitives) lives in the
external `abstract_round_abci` package and is modelled from the specification.
-/

namespace NewLearningAbci

/-- Agent identifiers (Python `str` agent addresses). -/
abbrev AgentID := String

/-- Payload values (the ping message strings). -/
abbrev Value := String

/-- The `Event` enumeration of `NewLearningAbciApp` (rounds.py, class `Event`):
DONE, ERROR, TRANSACT, NO_MAJORITY, ROUND_TIMEOUT. -/
inductive Event where
  | DONE
  | ERROR
  | TRANSACT
  | NO_MAJORITY
  | ROUND_TIMEOUT
deriving DecidableEq, Repr, Fintype

/-- The round classes declared in rounds.py: `PingRound` (the collecting round)
and `FinishedPingRound` (the degenerate round). -/
inductive RoundKind where
  | PingRound
  | FinishedPingRound
deriving DecidableEq, Repr, Fintype

/-- The `transition_function` dict of `NewLearningAbciApp` (rounds.py lines
95-102), embedded as an association list of association lists exactly as the
Python dict-of-dicts is written: `PingRound` maps NO_MAJORITY and ROUND_TIMEOUT
back to itself and DONE to `FinishedPingRound`; `FinishedPingRound` has an
empty row. -/
def transition_function : List (RoundKind × List (Event × RoundKind)) :=
  [ (RoundKind.PingRound,
      [ (Event.NO_MAJORITY, RoundKind.PingRound),
        (Event.ROUND_TIMEOUT, RoundKind.PingRound),
        (Event.DONE, RoundKind.FinishedPingRound) ]),
    (RoundKind.FinishedPingRound, []) ]

/-- Lookup of a `(round, event)` pair in the transition table. -/
def lookupTransition (current : RoundKind) (e : Event) : Option RoundKind :=
  match transition_function.lookup current with
  | some row => row.lookup e
  | none => none

/-- The `final_states` set of `NewLearningAbciApp` (rounds.py lines 103-105). -/
def final_states : List RoundKind := [RoundKind.FinishedPingRound]

/-- The `initial_round_cls` of `NewLearningAbciApp` (rounds.py line 91). -/
def initial_round_cls : RoundKind := RoundKind.PingRound

/-- The range of the transition table: every round kind that appears as the
target of some declared transition. -/
def transitionRange : List RoundKind :=
  transition_function.flatMap (fun row => row.2.map Prod.snd)

/-- Errors of the state-machine engine. -/
inductive AppError where
  | NoTransitionError
deriving DecidableEq, Repr

deriving instance DecidableEq for Except

/-- Modelled from the spec: `advance(current, event)` of the App (the engine's
transition resolution is in `abstract_round_abci`, not under src); it fails with
`NoTransitionError` exactly when the pair is absent from the table. -/
def advance (current : RoundKind) (e : Event) : Except AppError RoundKind :=
  match lookupTransition current e with
  | some next => Except.ok next
  | none => Except.error AppError.NoTransitionError

/-! ## The collecting round (modelled from the spec) -/

/-- Result of submitting a payload to a round. -/
inductive SubmitResult where
  | accepted
  | unknownSenderError
deriving DecidableEq, Repr

/-- Modelled from the spec: the state of a `CollectSameUntilThresholdRound`
instance (the engine class behind `PingRound` is in `abstract_round_abci`, not
under src): the known agent set, the threshold, the sender-to-value collection
(insertion-ordered, one entry per agent), and the resolution, `none` until the
round resolves and then the event together with the selected value. -/
structure RoundState where
  agents : List AgentID
  threshold : Nat
  collection : List (AgentID × Value)
  resolved : Option (Event × Option Value)
deriving DecidableEq, Repr

/-- The values of a collection, in insertion order. -/
def vals (c : List (AgentID × Value)) : List Value := c.map Prod.snd

/-- The senders of a collection, in insertion order. -/
def senders (c : List (AgentID × Value)) : List AgentID := c.map Prod.fst

/-- The size of the largest group of equal payload values. -/
def maxCount (c : List (AgentID × Value)) : Nat :=
  ((vals c).map (fun v => (vals c).count v)).foldr max 0

/-- The value of the largest group (first such value in insertion order). -/
def bestValue (c : List (AgentID × Value)) : Option Value :=
  (vals c).find? (fun v => (vals c).count v == maxCount c)

/-- Modelled from the spec: resolution evaluation on a collection snapshot.  If
the largest group of equal values reaches the threshold the round resolves
`DONE` with that value selected; otherwise, if every registered agent has
submitted, it resolves `NO_MAJORITY` with no selection; otherwise it stays
unresolved. -/
def evaluate (threshold : Nat) (agents : List AgentID) (c : List (AgentID × Value)) :
    Option (Event × Option Value) :=
  if threshold ≤ maxCount c then some (Event.DONE, bestValue c)
  else if c.length = agents.length then some (Event.NO_MAJORITY, none)
  else none

/-- Modelled from the spec: upsert of a sender's payload into the collection;
a sender already present has its value replaced in place, a new sender is
appended. -/
def upsert (c : List (AgentID × Value)) (a : AgentID) (v : Value) :
    List (AgentID × Value) :=
  if a ∈ senders c then
    c.map (fun p => if p.1 = a then (a, v) else p)
  else c ++ [(a, v)]

/-- Modelled from the spec: `submit(payload)`.  A sender outside the known agent
set is rejected with `UnknownSenderError` and the round state is untouched; a
submission to an already resolved (frozen) round is accepted but ignored (the
spec's design note fixes "ignored after freeze"); otherwise the payload is
upserted and the resolution re-evaluated on the new snapshot. -/
def submit (r : RoundState) (sender : AgentID) (v : Value) :
    SubmitResult × RoundState :=
  if sender ∈ r.agents then
    if r.resolved.isSome then
      (SubmitResult.accepted, r)
    else
      let c := upsert r.collection sender v
      (SubmitResult.accepted,
        { r with collection := c, resolved := evaluate r.threshold r.agents c })
  else
    (SubmitResult.unknownSenderError, r)

/-- A fresh round for a given agent set and threshold. -/
def initRound (agents : List AgentID) (threshold : Nat) : RoundState :=
  { agents := agents, threshold := threshold, collection := [], resolved := none }

/-- Submit a whole list of payloads in order. -/
def processList (r : RoundState) (l : List (AgentID × Value)) : RoundState :=
  l.foldl (fun s p => (submit s p.1 p.2).2) r

/-! ## The replicated database and the `SynchronizedData` accessors -/

/-- Values stored in the replicated database: strings or serialized
collections. -/
inductive DBVal where
  | str (s : String)
  | coll (m : List (AgentID × Value))
deriving DecidableEq, Repr

/-- The replicated key-value database behind `SynchronizedData`. -/
abbrev DB := List (String × DBVal)

/-- Errors of the database layer. -/
inductive DBError where
  | KeyNotFoundError
  | DeserializationError
deriving DecidableEq, Repr

/-- The `selection_key` of `PingRound` (rounds.py line 82):
`get_name(SynchronizedData.ping_message)`. -/
def selection_key : String := "ping_message"

/-- The `collection_key` of `PingRound` (rounds.py line 81):
`get_name(SynchronizedData.participant_to_ping_round)`. -/
def collection_key : String := "participant_to_ping_round"

/-- Modelled from the spec: `db.get(key, default)` of the replicated store
(the database class is in `abstract_round_abci`, not under src): the stored
value when the key is present, the default otherwise. -/
def dbGet (db : DB) (key : String) (dflt : Option DBVal) : Option DBVal :=
  match db.lookup key with
  | some v => some v
  | none => dflt

/-- Modelled from the spec: `db.get_strict(key)`: the stored value when the key
is present, an error otherwise. -/
def get_strict (db : DB) (key : String) : Except DBError DBVal :=
  match db.lookup key with
  | some v => Except.ok v
  | none => Except.error DBError.KeyNotFoundError

/-- Deserialization of a stored collection
(`CollectionRound.deserialize_collection`). -/
def deserialize_collection : DBVal → Except DBError (List (AgentID × Value))
  | DBVal.coll m => Except.ok m
  | DBVal.str _ => Except.error DBError.DeserializationError

/-- The `SynchronizedData.ping_message` property (rounds.py lines 64-67):
`self.db.get("ping_message", None)`. -/
def ping_message (db : DB) : Option DBVal := dbGet db "ping_message" none

/-- The `SynchronizedData._get_deserialized` helper (rounds.py lines 59-62):
strict lookup followed by deserialization. -/
def get_deserialized (db : DB) (key : String) :
    Except DBError (List (AgentID × Value)) :=
  match get_strict db key with
  | Except.ok v => deserialize_collection v
  | Except.error e => Except.error e

/-- The `SynchronizedData.participant_to_ping_round` property (rounds.py lines
69-72): `self._get_deserialized("participant_to_ping_round")`. -/
def participant_to_ping_round (db : DB) :
    Except DBError (List (AgentID × Value)) :=
  get_deserialized db "participant_to_ping_round"

/-- Modelled from the spec: the commit a resolved round performs on the
replicated database.  On `DONE` it atomically writes the collection key (the
full sender-to-value map) and the selection key (the agreed value); on any
other outcome it writes nothing. -/
def commitRound (r : RoundState) (db : DB) : DB :=
  match r.resolved with
  | some (Event.DONE, some v) =>
      (collection_key, DBVal.coll r.collection) :: (selection_key, DBVal.str v) :: db
  | _ => db

/-! ## The `PingBehaviour` payload (behaviours.py) -/

/-- `PingBehaviour.send_message_to_ipfs` (behaviours.py lines 133-142): wrap
the ping message as the object with the single key "ping_message" and put it
into the content-addressed store. -/
def send_message_to_ipfs {Hash : Type} (put : List (String × Value) → Hash)
    (m : Value) : Hash :=
  put [("ping_message", m)]

/-- `PingBehaviour.get_message_from_ipfs` (behaviours.py lines 144-150): get
the object back from the content-addressed store and project out the
"ping_message" field. -/
def get_message_from_ipfs {Hash : Type} (get : Hash → List (String × Value))
    (h : Hash) : Option Value :=
  (get h).lookup "ping_message"

/-- The payload value `PingBehaviour.async_act` submits (behaviours.py lines
101-109): the ping message after the store/retrieve round-trip. -/
def pingPayloadValue {Hash : Type} (put : List (String × Value) → Hash)
    (get : Hash → List (String × Value)) (m : Value) : Option Value :=
  get_message_from_ipfs get (send_message_to_ipfs put m)

/-! ## Concrete scenarios -/

/-- The four registered agents of the end-to-end scenarios. -/
def agents4 : List AgentID := ["agent1", "agent2", "agent3", "agent4"]

/-- Scenario submissions "A", "A", "A" by the first three agents. -/
def scenarioDone : List (AgentID × Value) :=
  [("agent1", "A"), ("agent2", "A"), ("agent3", "A")]

/-- Scenario submissions of four pairwise-distinct values. -/
def scenarioDistinct : List (AgentID × Value) :=
  [("agent1", "A"), ("agent2", "B"), ("agent3", "C"), ("agent4", "D")]

/-- A small two-agent round with one submission already collected, used as a
concrete witness input. -/
def roundWithOneEntry : RoundState :=
  { agents := ["agent1", "agent2"], threshold := 2,
    collection := [("agent1", "A")], resolved := none }

/-- Three agents used by the permutation counterexample. -/
def agents3 : List AgentID := ["a", "b", "c"]

/-- Submission order in which agent "a" resubmits before "b" arrives, so the
final snapshot holds a's latest value "y" and the "y" group reaches 2. -/
def permListA : List (AgentID × Value) := [("a", "x"), ("a", "y"), ("b", "y")]

/-- The same multiset of payloads with the first two submissions swapped: now
a's latest value is "x" and no group ever reaches 2. -/
def permListB : List (AgentID × Value) := [("a", "y"), ("a", "x"), ("b", "y")]

/-- A permutation of `scenarioDistinct` (first two submissions swapped), used
as a concrete witness input for order-invariance. -/
def scenarioDistinctSwapped : List (AgentID × Value) :=
  [("agent2", "B"), ("agent1", "A"), ("agent3", "C"), ("agent4", "D")]

/-- Four agents used by the tied-groups counterexample. -/
def agentsTie : List AgentID := ["a", "b", "c", "d"]

/-- Each agent submits exactly once, but with threshold 2 two value groups can
each reach the threshold; in this order the "x" group completes first. -/
def tieListA : List (AgentID × Value) :=
  [("a", "x"), ("b", "x"), ("c", "y"), ("d", "y")]

/-- The same submissions with the two halves exchanged: now the "y" group
completes first. -/
def tieListB : List (AgentID × Value) :=
  [("c", "y"), ("d", "y"), ("a", "x"), ("b", "x")]

/-! ## Helper lemmas about the collection -/

/-- Replacing one sender's value in place leaves the sender list unchanged. -/
theorem senders_replace (c : List (AgentID × Value)) (a : AgentID) (v : Value) :
    senders (c.map (fun p => if p.1 = a then (a, v) else p)) = senders c := by
  induction c with
  | nil => rfl
  | cons p t ih =>
    simp only [senders, List.map_cons] at ih ⊢
    by_cases h : p.1 = a
    · simpa [h] using ih
    · simpa [h] using ih

/-- After replacing a present sender's value, lookup finds the new value. -/
theorem lookup_replace (c : List (AgentID × Value)) (a : AgentID) (v : Value)
    (h : a ∈ senders c) :
    (c.map (fun p => if p.1 = a then (a, v) else p)).lookup a = some v := by
  induction c with
  | nil => cases h
  | cons p t ih =>
    simp only [List.map_cons]
    by_cases hp : p.1 = a
    · rw [if_pos hp]
      simp [List.lookup]
    · rw [if_neg hp]
      have ht : a ∈ senders t := by
        simp only [senders, List.map_cons, List.mem_cons] at h
        rcases h with h | h
        · exact absurd h.symm hp
        · exact h
      have ha : (a == p.1) = false := beq_eq_false_iff_ne.mpr (Ne.symm hp)
      simpa [List.lookup, ha] using ih ht

/-- Every member of a list of naturals is bounded by its foldr-max. -/
theorem le_foldr_max (L : List Nat) (x : Nat) (hx : x ∈ L) : x ≤ L.foldr max 0 := by
  induction L with
  | nil => cases hx
  | cons y s ih =>
    rcases List.mem_cons.mp hx with h | h
    · subst h; exact le_max_left _ _
    · exact le_trans (ih h) (le_max_right _ _)

/-- The foldr-max of a list of naturals is zero or one of its members. -/
theorem foldr_max_mem (L : List Nat) : L.foldr max 0 = 0 ∨ L.foldr max 0 ∈ L := by
  induction L with
  | nil => exact Or.inl rfl
  | cons y s ih =>
    simp only [List.foldr_cons]
    rcases le_total (s.foldr max 0) y with h | h
    · rw [max_eq_left h]
      exact Or.inr (List.mem_cons_self y s)
    · rw [max_eq_right h]
      rcases ih with h0 | hm
      · rw [h0]
        exact Or.inl rfl
      · exact Or.inr (List.mem_cons_of_mem y hm)

/-- The count of any value present in the collection is at most `maxCount`. -/
theorem count_le_maxCount (c : List (AgentID × Value)) (v : Value)
    (hv : v ∈ vals c) : (vals c).count v ≤ maxCount c :=
  le_foldr_max _ _ (List.mem_map_of_mem (fun w => (vals c).count w) hv)

/-- If `maxCount` reaches a positive bound, some present value reaches it. -/
theorem exists_count_ge_of_le_maxCount (c : List (AgentID × Value)) (t : Nat)
    (ht : 0 < t) (h : t ≤ maxCount c) :
    ∃ v ∈ vals c, t ≤ (vals c).count v := by
  rcases foldr_max_mem ((vals c).map (fun v => (vals c).count v)) with h0 | hm
  · exfalso
    have : maxCount c = 0 := h0
    omega
  · rcases List.mem_map.mp hm with ⟨v, hv, hcv⟩
    refine ⟨v, hv, ?_⟩
    have : (vals c).count v = maxCount c := hcv
    omega

/-- Two distinct values cannot have counts summing beyond the list length. -/
theorem count_pair_le_length (L : List Value) (u v : Value) (huv : u ≠ v) :
    L.count u + L.count v ≤ L.length := by
  induction L with
  | nil => simp
  | cons x s ih =>
    simp only [List.count_cons, List.length_cons, beq_iff_eq]
    by_cases h1 : x = u <;> by_cases h2 : x = v
    · exact absurd (h1.symm.trans h2) huv
    · rw [if_pos h1, if_neg h2]
      omega
    · rw [if_neg h1, if_pos h2]
      omega
    · rw [if_neg h1, if_neg h2]
      omega

/-- A nodup list included in another list is no longer than it. -/
theorem length_le_of_nodup_subset (l A : List AgentID) (hn : l.Nodup)
    (hsub : ∀ a ∈ l, a ∈ A) : l.length ≤ A.length :=
  (List.subperm_of_subset hn (fun _ ha => hsub _ ha)).length_le

/-- A nodup list included in a list of the same or smaller length contains
every element of the larger list. -/
theorem mem_of_nodup_subset_full (l A : List AgentID) (hn : l.Nodup)
    (hsub : ∀ a ∈ l, a ∈ A) (hlen : A.length ≤ l.length) (b : AgentID)
    (hb : b ∈ A) : b ∈ l :=
  ((List.subperm_of_subset hn (fun _ ha => hsub _ ha)).perm_of_length_le
    hlen).symm.subset hb

/-- `find?` on a list that contains a unique satisfying element returns it. -/
theorem find?_unique {α : Type} (L : List α) (p : α → Bool) (v : α)
    (hmem : v ∈ L) (hpv : p v = true) (huniq : ∀ w ∈ L, p w = true → w = v) :
    L.find? p = some v := by
  induction L with
  | nil => cases hmem
  | cons x s ih =>
    by_cases hx : p x = true
    · have hxv : x = v := huniq x (List.mem_cons_self x s) hx
      subst hxv
      exact List.find?_cons_of_pos s hx
    · have hxv : x ≠ v := fun h => hx (h ▸ hpv)
      have hmem' : v ∈ s :=
        (List.mem_cons.mp hmem).resolve_left (fun h => hxv h.symm)
      rw [List.find?_cons_of_neg s hx]
      exact ih hmem' (fun w hw hpw => huniq w (List.mem_cons_of_mem x hw) hpw)

/-- If one value's group reaches the threshold while every other value's group
stays below it, `bestValue` selects that value. -/
theorem bestValue_eq_of_unique_max (c : List (AgentID × Value)) (v : Value)
    (t : Nat) (hv : v ∈ vals c) (hcv : t ≤ (vals c).count v)
    (hother : ∀ w ∈ vals c, w ≠ v → (vals c).count w < t) :
    bestValue c = some v := by
  have hmax : maxCount c = (vals c).count v := by
    apply le_antisymm
    · rcases foldr_max_mem ((vals c).map (fun w => (vals c).count w)) with h0 | hm
      · have : maxCount c = 0 := h0
        omega
      · rcases List.mem_map.mp hm with ⟨w, hw, hcw⟩
        have hcw' : (vals c).count w = maxCount c := hcw
        by_cases hwv : w = v
        · subst hwv
          omega
        · have := hother w hw hwv
          omega
    · exact count_le_maxCount c v hv
  unfold bestValue
  apply find?_unique (vals c) _ v hv
  · simp [hmax]
  · intro w hw hpw
    by_contra hwv
    have hcw : (vals c).count w = maxCount c := by
      simpa using hpw
    have := hother w hw hwv
    omega

/-- Submitting to a frozen (already resolved) round leaves it unchanged. -/
theorem submit_frozen (r : RoundState) (sender : AgentID) (v : Value)
    (h : r.resolved.isSome = true) : (submit r sender v).2 = r := by
  unfold submit
  by_cases hm : sender ∈ r.agents
  · simp [hm, h]
  · simp [hm]

/-- Processing any payload list on a frozen round leaves it unchanged. -/
theorem processList_frozen (r : RoundState) (l : List (AgentID × Value))
    (h : r.resolved.isSome = true) : processList r l = r := by
  induction l with
  | nil => rfl
  | cons p s ih =>
    show processList (submit r p.1 p.2).2 s = r
    rw [submit_frozen r p.1 p.2 h]
    exact ih

/-- Upserting an absent sender appends its entry. -/
theorem upsert_not_mem (c : List (AgentID × Value)) (a : AgentID) (v : Value)
    (h : a ∉ senders c) : upsert c a v = c ++ [(a, v)] := by
  unfold upsert
  rw [if_neg h]

/-- Unfolding one processing step. -/
theorem processList_cons (r : RoundState) (p : AgentID × Value)
    (l : List (AgentID × Value)) :
    processList r (p :: l) = processList (submit r p.1 p.2).2 l := rfl

/-- A known, fresh sender submitting to a live round appends its payload and
re-evaluates the resolution on the new snapshot. -/
theorem submit_live_fresh (A : List AgentID) (t : Nat)
    (c : List (AgentID × Value)) (a : AgentID) (v : Value)
    (hm : a ∈ A) (hnotin : a ∉ senders c) :
    (submit ⟨A, t, c, none⟩ a v).2
      = ⟨A, t, c ++ [(a, v)], evaluate t A (c ++ [(a, v)])⟩ := by
  simp [submit, hm, upsert_not_mem c a v hnotin]

/-- Senders of an appended singleton. -/
theorem senders_append (c : List (AgentID × Value)) (a : AgentID) (w : Value) :
    senders (c ++ [(a, w)]) = senders c ++ [a] := by
  simp [senders]

/-- Values of an appended singleton. -/
theorem vals_append (c : List (AgentID × Value)) (a : AgentID) (w : Value) :
    vals (c ++ [(a, w)]) = vals c ++ [w] := by
  simp [vals]

/-- Count of a value after appending one payload. -/
theorem count_vals_append (c : List (AgentID × Value)) (a : AgentID)
    (w u : Value) :
    (vals (c ++ [(a, w)])).count u
      = (vals c).count u + if u = w then 1 else 0 := by
  rw [vals_append, List.count_append, List.count_singleton']
  rcases eq_or_ne u w with h | h
  · subst h
    simp
  · rw [if_neg (Ne.symm h), if_neg h]

/-- Count of a value in a cons of payloads. -/
theorem count_vals_cons (a : AgentID) (w : Value)
    (rest : List (AgentID × Value)) (u : Value) :
    (vals ((a, w) :: rest)).count u
      = (if u = w then 1 else 0) + (vals rest).count u := by
  simp only [vals, List.map_cons, List.count_cons, beq_iff_eq]
  rcases eq_or_ne u w with h | h
  · subst h
    simp only [if_pos rfl]
    omega
  · rw [if_neg (Ne.symm h), if_neg h]
    omega

/-- Count of a value in appended payload lists. -/
theorem count_vals_append_general (c l : List (AgentID × Value)) (u : Value) :
    (vals (c ++ l)).count u = (vals c).count u + (vals l).count u := by
  simp [vals, List.count_append]

/-- Characterization of the modelled engine, no-majority path: from a live
mid-round collection, if no value's total count (collected plus pending) ever
reaches the threshold, then after processing all pending submissions the round
has resolved `NO_MAJORITY` exactly when the submissions cover every registered
agent, and otherwise is still unresolved with the collection grown by exactly
the pending payloads. -/
theorem processList_aux_no_majority (A : List AgentID) (t : Nat)
    (l : List (AgentID × Value)) :
    ∀ c : List (AgentID × Value),
    (senders c).Nodup → (∀ a ∈ senders c, a ∈ A) →
    c.length < A.length →
    (senders l).Nodup → (∀ a ∈ senders l, a ∈ A) →
    (∀ a ∈ senders l, a ∉ senders c) →
    (∀ v, (vals c).count v + (vals l).count v < t) →
    ((c.length + l.length = A.length →
        (processList ⟨A, t, c, none⟩ l).resolved
          = some (Event.NO_MAJORITY, none)) ∧
     (c.length + l.length < A.length →
        (processList ⟨A, t, c, none⟩ l).resolved = none ∧
        (processList ⟨A, t, c, none⟩ l).collection = c ++ l)) := by
  induction l with
  | nil =>
    intro c _ _ hc4 _ _ _ _
    constructor
    · intro h
      simp only [List.length_nil] at h
      omega
    · intro _
      exact ⟨rfl, by simp [processList]⟩
  | cons p rest ih =>
    intro c hc1 hc2 hc4 hl1 hl2 hdisj hcnt
    obtain ⟨a, v⟩ := p
    have hsl : senders ((a, v) :: rest) = a :: senders rest := rfl
    have ha_mem : a ∈ A := hl2 a (by rw [hsl]; exact List.mem_cons_self a _)
    have ha_notin : a ∉ senders c :=
      hdisj a (by rw [hsl]; exact List.mem_cons_self a _)
    have hstep : processList ⟨A, t, c, none⟩ ((a, v) :: rest)
        = processList
            ⟨A, t, c ++ [(a, v)], evaluate t A (c ++ [(a, v)])⟩ rest := by
      rw [processList_cons, submit_live_fresh A t c a v ha_mem ha_notin]
    set c' := c ++ [(a, v)] with hc'
    have hlen' : c'.length = c.length + 1 := by simp [hc']
    have htpos : 0 < t := lt_of_le_of_lt (Nat.zero_le _) (hcnt v)
    have hnodup' : (senders c').Nodup := by
      rw [hc', senders_append]
      refine List.nodup_append.mpr ⟨hc1, List.nodup_singleton a, ?_⟩
      intro x hx hy
      have hxa : x = a := by simpa using hy
      subst hxa
      exact ha_notin hx
    have hsub' : ∀ b ∈ senders c', b ∈ A := by
      intro b hb
      rw [hc', senders_append] at hb
      rcases List.mem_append.mp hb with h | h
      · exact hc2 b h
      · have hba : b = a := by simpa using h
        subst hba
        exact ha_mem
    have hlen_le : c'.length ≤ A.length := by
      have h := length_le_of_nodup_subset (senders c') A hnodup' hsub'
      simpa [senders] using h
    have hcnt_c' : ∀ u, (vals c').count u + (vals rest).count u < t := by
      intro u
      have h1 := hcnt u
      rw [count_vals_cons] at h1
      rw [hc', count_vals_append]
      omega
    rw [hstep]
    by_cases hdone : t ≤ maxCount c'
    · exfalso
      obtain ⟨u, _, hu_cnt⟩ := exists_count_ge_of_le_maxCount c' t htpos hdone
      have h2 := hcnt_c' u
      omega
    · by_cases hcov : c'.length = A.length
      · have heval : evaluate t A c' = some (Event.NO_MAJORITY, none) := by
          simp only [evaluate]
          rw [if_neg hdone, if_pos hcov]
        have hfrozen : processList ⟨A, t, c', evaluate t A c'⟩ rest
            = ⟨A, t, c', evaluate t A c'⟩ := by
          apply processList_frozen
          rw [heval]
          rfl
        rw [hfrozen]
        constructor
        · intro _
          exact heval
        · intro hlt
          exfalso
          simp only [List.length_cons] at hlt
          omega
      · have heval : evaluate t A c' = none := by
          simp only [evaluate]
          rw [if_neg hdone, if_neg hcov]
        have hclt : c'.length < A.length := lt_of_le_of_ne hlen_le hcov
        have hrest1 : (senders rest).Nodup := by
          rw [hsl] at hl1
          exact hl1.of_cons
        have hrest2 : ∀ b ∈ senders rest, b ∈ A := fun b hb =>
          hl2 b (by rw [hsl]; exact List.mem_cons_of_mem a hb)
        have hdisj' : ∀ b ∈ senders rest, b ∉ senders c' := by
          intro b hb hbc'
          rw [hc', senders_append] at hbc'
          rcases List.mem_append.mp hbc' with h | h
          · exact hdisj b (by rw [hsl]; exact List.mem_cons_of_mem a hb) h
          · have hba : b = a := by simpa using h
            subst hba
            rw [hsl] at hl1
            exact (List.nodup_cons.mp hl1).1 hb
        have hmain := ih c' hnodup' hsub' hclt hrest1 hrest2 hdisj' hcnt_c'
        rw [heval]
        constructor
        · intro hEq
          apply hmain.1
          simp only [List.length_cons] at hEq
          omega
        · intro hlt
          simp only [List.length_cons] at hlt
          have h2 := hmain.2 (by omega)
          refine ⟨h2.1, ?_⟩
          rw [h2.2, hc']
          simp

/-- Characterization of the modelled engine, majority path: from a live
mid-round collection whose value groups are all below the threshold, if one
value's total count (collected plus pending) reaches the threshold and the
threshold is a strict majority of the registered agents (`N < 2t`), then after
processing all pending submissions the round has resolved `DONE` selecting
exactly that value. -/
theorem processList_aux_done (A : List AgentID) (t : Nat)
    (l : List (AgentID × Value)) :
    ∀ c : List (AgentID × Value), ∀ v : Value,
    (senders c).Nodup → (∀ a ∈ senders c, a ∈ A) →
    (∀ u, (vals c).count u < t) →
    c.length < A.length →
    (senders l).Nodup → (∀ a ∈ senders l, a ∈ A) →
    (∀ a ∈ senders l, a ∉ senders c) →
    A.length < 2 * t →
    t ≤ (vals c).count v + (vals l).count v →
    (processList ⟨A, t, c, none⟩ l).resolved = some (Event.DONE, some v) := by
  induction l with
  | nil =>
    intro c v _ _ hc3 _ _ _ _ _ hv
    exfalso
    have h := hc3 v
    have h0 : (vals ([] : List (AgentID × Value))).count v = 0 := rfl
    omega
  | cons p rest ih =>
    intro c v hc1 hc2 hc3 hc4 hl1 hl2 hdisj ht2 hv
    obtain ⟨a, w⟩ := p
    have hsl : senders ((a, w) :: rest) = a :: senders rest := rfl
    have ha_mem : a ∈ A := hl2 a (by rw [hsl]; exact List.mem_cons_self a _)
    have ha_notin : a ∉ senders c :=
      hdisj a (by rw [hsl]; exact List.mem_cons_self a _)
    have hstep : processList ⟨A, t, c, none⟩ ((a, w) :: rest)
        = processList
            ⟨A, t, c ++ [(a, w)], evaluate t A (c ++ [(a, w)])⟩ rest := by
      rw [processList_cons, submit_live_fresh A t c a w ha_mem ha_notin]
    set c' := c ++ [(a, w)] with hc'
    have hlen' : c'.length = c.length + 1 := by simp [hc']
    have htpos : 0 < t := by omega
    have hnodup' : (senders c').Nodup := by
      rw [hc', senders_append]
      refine List.nodup_append.mpr ⟨hc1, List.nodup_singleton a, ?_⟩
      intro x hx hy
      have hxa : x = a := by simpa using hy
      subst hxa
      exact ha_notin hx
    have hsub' : ∀ b ∈ senders c', b ∈ A := by
      intro b hb
      rw [hc', senders_append] at hb
      rcases List.mem_append.mp hb with h | h
      · exact hc2 b h
      · have hba : b = a := by simpa using h
        subst hba
        exact ha_mem
    have hlen_le : c'.length ≤ A.length := by
      have h := length_le_of_nodup_subset (senders c') A hnodup' hsub'
      simpa [senders] using h
    rw [hstep]
    by_cases hdone : t ≤ maxCount c'
    · -- the appended payload pushes w's group to the threshold
      obtain ⟨u, hu_mem, hu_cnt⟩ :=
        exists_count_ge_of_le_maxCount c' t htpos hdone
      have huw : u = w := by
        by_contra hne
        have hcu : (vals c').count u = (vals c).count u := by
          rw [hc', count_vals_append, if_neg hne]
          omega
        have h := hc3 u
        omega
      subst huw
      have hcw' : t ≤ (vals c').count u := hu_cnt
      have hvw : v = u := by
        by_contra hne
        have htotv : t ≤ (vals (c ++ (a, u) :: rest)).count v := by
          rw [count_vals_append_general]
          exact hv
        have htotu : t ≤ (vals (c ++ (a, u) :: rest)).count u := by
          rw [count_vals_append_general, count_vals_cons]
          rw [hc', count_vals_append] at hcw'
          simp only [if_pos rfl] at hcw' ⊢
          omega
        have hnodapp : (senders (c ++ (a, u) :: rest)).Nodup := by
          have : senders (c ++ (a, u) :: rest)
              = senders c ++ senders ((a, u) :: rest) := by simp [senders]
          rw [this]
          refine List.nodup_append.mpr ⟨hc1, hl1, ?_⟩
          intro x hx hy
          exact hdisj x hy hx
        have hlelen : (senders (c ++ (a, u) :: rest)).length ≤ A.length :=
          length_le_of_nodup_subset _ A hnodapp (by
            intro b hb
            have : senders (c ++ (a, u) :: rest)
                = senders c ++ senders ((a, u) :: rest) := by simp [senders]
            rw [this] at hb
            rcases List.mem_append.mp hb with h | h
            · exact hc2 b h
            · exact hl2 b h)
        have hcount_len := count_pair_le_length
          (vals (c ++ (a, u) :: rest)) v u hne
        have hvlen : (vals (c ++ (a, u) :: rest)).length
            = (senders (c ++ (a, u) :: rest)).length := by
          simp [vals, senders]
        omega
      subst hvw
      have hbest : bestValue c' = some v := by
        refine bestValue_eq_of_unique_max c' v t ?_ hcw' ?_
        · rw [hc', vals_append]
          exact List.mem_append.mpr (Or.inr (List.mem_singleton.mpr rfl))
        · intro x hx hxv
          rw [hc', count_vals_append, if_neg hxv]
          have h := hc3 x
          omega
      have heval : evaluate t A c' = some (Event.DONE, some v) := by
        simp only [evaluate]
        rw [if_pos hdone, hbest]
      have hfrozen := processList_frozen
        ⟨A, t, c', some (Event.DONE, some v)⟩ rest rfl
      rw [heval, hfrozen]
    · by_cases hcov : c'.length = A.length
      · exfalso
        -- every agent has already submitted, so nothing is pending
        have hfull : ∀ b ∈ A, b ∈ senders c' := by
          intro b hb
          refine mem_of_nodup_subset_full (senders c') A hnodup' hsub' ?_ b hb
          have : (senders c').length = c'.length := by simp [senders]
          omega
        have hrest_nil : rest = [] := by
          cases rest with
          | nil => rfl
          | cons q r2 =>
            exfalso
            obtain ⟨b, u2⟩ := q
            have hbmem : b ∈ senders ((a, w) :: (b, u2) :: r2) := by
              rw [hsl]
              exact List.mem_cons_of_mem a (List.mem_cons_self b _)
            have hbA : b ∈ A := hl2 b hbmem
            have hbc' : b ∈ senders c' := hfull b hbA
            rw [hc', senders_append] at hbc'
            rcases List.mem_append.mp hbc' with h | h
            · exact hdisj b hbmem h
            · have hba : b = a := by simpa using h
              subst hba
              rw [hsl] at hl1
              exact (List.nodup_cons.mp hl1).1 (List.mem_cons_self b _)
        subst hrest_nil
        have hvc' : t ≤ (vals c').count v := by
          rw [count_vals_cons] at hv
          rw [hc', count_vals_append]
          have h0 : (vals ([] : List (AgentID × Value))).count v = 0 := rfl
          omega
        have hmax : ¬ t ≤ maxCount c' := hdone
        by_cases hvin : v ∈ vals c'
        · exact hmax (le_trans hvc' (count_le_maxCount c' v hvin))
        · rw [List.count_eq_zero_of_not_mem hvin] at hvc'
          omega
      · have heval : evaluate t A c' = none := by
          simp only [evaluate]
          rw [if_neg hdone, if_neg hcov]
        have hclt : c'.length < A.length := lt_of_le_of_ne hlen_le hcov
        have hrest1 : (senders rest).Nodup := by
          rw [hsl] at hl1
          exact hl1.of_cons
        have hrest2 : ∀ b ∈ senders rest, b ∈ A := fun b hb =>
          hl2 b (by rw [hsl]; exact List.mem_cons_of_mem a hb)
        have hdisj' : ∀ b ∈ senders rest, b ∉ senders c' := by
          intro b hb hbc'
          rw [hc', senders_append] at hbc'
          rcases List.mem_append.mp hbc' with h | h
          · exact hdisj b (by rw [hsl]; exact List.mem_cons_of_mem a hb) h
          · have hba : b = a := by simpa using h
            subst hba
            rw [hsl] at hl1
            exact (List.nodup_cons.mp hl1).1 hb
        have hc3' : ∀ u, (vals c').count u < t := by
          intro u
          by_cases hin : u ∈ vals c'
          · exact lt_of_le_of_lt (count_le_maxCount c' u hin)
              (Nat.lt_of_not_le hdone)
          · rw [List.count_eq_zero_of_not_mem hin]
            exact htpos
        have hv' : t ≤ (vals c').count v + (vals rest).count v := by
          rw [count_vals_cons] at hv
          rw [hc', count_vals_append]
          omega
        rw [heval]
        exact ih c' v hnodup' hsub' hc3' hclt hrest1 hrest2 hdisj' ht2 hv'

/-- A round resolved with `NO_MAJORITY` commits nothing to the database. -/
theorem commitRound_no_majority (r : RoundState) (db : DB)
    (h : r.resolved = some (Event.NO_MAJORITY, none)) : commitRound r db = db := by
  unfold commitRound
  rw [h]

/-! ## Claim theorems -/

/-- C1 (counterexample): in the App defined by this repository the claim fails:
after the four pairwise-distinct submissions with threshold 3 the round does
end `NO_MAJORITY`, but `advance(PingRound, NO_MAJORITY)` does not raise
`NoTransitionError`, because rounds.py line 97 declares the self-loop
`Event.NO_MAJORITY: PingRound`. -/
theorem C1_counterexample :
    (processList (initRound agents4 3) scenarioDistinct).resolved
        = some (Event.NO_MAJORITY, none) ∧
    advance RoundKind.PingRound Event.NO_MAJORITY
        ≠ Except.error AppError.NoTransitionError := by
  refine ⟨rfl, ?_⟩
  intro h
  exact Except.noConfusion h

/-- C1 (amended): agents submit four pairwise-distinct values with threshold 3,
the round ends `NO_MAJORITY`, and the subsequent `advance(PingRound,
NO_MAJORITY)` succeeds, returning `PingRound` itself: this App does declare the
`NO_MAJORITY` self-loop. -/
theorem C1_no_majority_self_loop :
    (processList (initRound agents4 3) scenarioDistinct).resolved
        = some (Event.NO_MAJORITY, none) ∧
    advance RoundKind.PingRound Event.NO_MAJORITY
        = Except.ok RoundKind.PingRound :=
  ⟨rfl, rfl⟩

/-- C2: with 4 registered agents and threshold 3, after the submissions "A",
"A", "A" by the first three agents the round resolves `DONE` with selection
"A", the collection holds exactly the three submitting agents, the committed
database serves "A" through the `ping_message` accessor and the three-agent map
through the `participant_to_ping_round` accessor, a late "B" from agent4 hits
the frozen round and changes nothing, and `advance(PingRound, DONE)` returns
`FinishedPingRound`, a final state. -/
theorem C2_done_scenario :
    (processList (initRound agents4 3) scenarioDone).resolved
        = some (Event.DONE, some "A") ∧
    (processList (initRound agents4 3) scenarioDone).collection
        = [("agent1", "A"), ("agent2", "A"), ("agent3", "A")] ∧
    ping_message (commitRound (processList (initRound agents4 3) scenarioDone) [])
        = some (DBVal.str "A") ∧
    participant_to_ping_round
        (commitRound (processList (initRound agents4 3) scenarioDone) [])
        = Except.ok [("agent1", "A"), ("agent2", "A"), ("agent3", "A")] ∧
    (submit (processList (initRound agents4 3) scenarioDone) "agent4" "B").2
        = processList (initRound agents4 3) scenarioDone ∧
    advance RoundKind.PingRound Event.DONE = Except.ok RoundKind.FinishedPingRound ∧
    RoundKind.FinishedPingRound ∈ final_states := by
  refine ⟨rfl, rfl, rfl, rfl, rfl, rfl, ?_⟩
  exact List.mem_singleton.mpr rfl

/-- C3: `advance` fails with `NoTransitionError` exactly when the pair is
absent from the transition table, and whenever it succeeds the returned round
kind lies in the table's range or in the final states. -/
theorem C3_advance_contract (r : RoundKind) (e : Event) :
    (advance r e = Except.error AppError.NoTransitionError
        ↔ lookupTransition r e = none) ∧
    ∀ next, advance r e = Except.ok next →
      next ∈ transitionRange ∨ next ∈ final_states := by
  revert r e
  decide

/-- C3 witness: the contract applied at the concrete pair (PingRound, DONE). -/
theorem C3_advance_contract_witness :
    (advance RoundKind.PingRound Event.DONE = Except.error AppError.NoTransitionError
        ↔ lookupTransition RoundKind.PingRound Event.DONE = none) ∧
    (RoundKind.FinishedPingRound ∈ transitionRange
        ∨ RoundKind.FinishedPingRound ∈ final_states) :=
  ⟨(C3_advance_contract RoundKind.PingRound Event.DONE).1,
   (C3_advance_contract RoundKind.PingRound Event.DONE).2
     RoundKind.FinishedPingRound rfl⟩

/-- C5: a resubmission by an agent already present in the collection of a live
round replaces the earlier value in place: the collection size is unchanged,
the sender list is unchanged (no duplicate entry), and lookup of the sender now
yields the latest value, which is therefore what threshold counting sees. -/
theorem C5_resubmission_replaces (r : RoundState) (sender : AgentID) (v : Value)
    (hmem : sender ∈ r.agents) (hres : r.resolved = none)
    (hin : sender ∈ senders r.collection) :
    (submit r sender v).2.collection.length = r.collection.length ∧
    senders (submit r sender v).2.collection = senders r.collection ∧
    (submit r sender v).2.collection.lookup sender = some v := by
  simp only [submit, if_pos hmem, hres, Option.isSome_none, Bool.false_eq_true,
    if_false, upsert, if_pos hin]
  exact ⟨List.length_map _ _, senders_replace r.collection sender v,
    lookup_replace r.collection sender v hin⟩

/-- C5 witness: agent1 resubmits "B" over its earlier "A" in a live two-agent
round. -/
theorem C5_resubmission_replaces_witness :
    (submit roundWithOneEntry "agent1" "B").2.collection.length
        = roundWithOneEntry.collection.length ∧
    senders (submit roundWithOneEntry "agent1" "B").2.collection
        = senders roundWithOneEntry.collection ∧
    (submit roundWithOneEntry "agent1" "B").2.collection.lookup "agent1"
        = some "B" :=
  C5_resubmission_replaces roundWithOneEntry "agent1" "B" (by decide) rfl (by decide)

/-- C6: a submission whose sender is outside the known agent set is rejected
with `UnknownSenderError` and the round state — collection, resolution,
everything — is exactly unchanged, so the rejected payload contributes nothing
to threshold counting and the round is not aborted. -/
theorem C6_unknown_sender_rejected (r : RoundState) (sender : AgentID) (v : Value)
    (hmem : sender ∉ r.agents) :
    (submit r sender v).1 = SubmitResult.unknownSenderError ∧
    (submit r sender v).2 = r := by
  simp [submit, hmem]

/-- C6 witness: an unregistered sender is rejected by the concrete two-agent
round and the state is unchanged. -/
theorem C6_unknown_sender_rejected_witness :
    (submit roundWithOneEntry "mallory" "A").1 = SubmitResult.unknownSenderError ∧
    (submit roundWithOneEntry "mallory" "A").2 = roundWithOneEntry :=
  C6_unknown_sender_rejected roundWithOneEntry "mallory" "A" (by decide)

/-- C9: on a database in which neither key has been written, the `ping_message`
accessor returns the default `none`, while the strict
`participant_to_ping_round` accessor fails with a key-not-found error. -/
theorem C9_accessor_absent_key (db : DB)
    (h1 : db.lookup "ping_message" = none)
    (h2 : db.lookup "participant_to_ping_round" = none) :
    ping_message db = none ∧
    participant_to_ping_round db = Except.error DBError.KeyNotFoundError := by
  constructor
  · simp [ping_message, dbGet, h1]
  · simp [participant_to_ping_round, get_deserialized, get_strict, h2]

/-- C9 witness: both accessors evaluated on the empty database. -/
theorem C9_accessor_absent_key_witness :
    ping_message [] = none ∧
    participant_to_ping_round [] = Except.error DBError.KeyNotFoundError :=
  C9_accessor_absent_key [] rfl rfl

/-- C10: the payload value `PingBehaviour` submits is the ping message after a
put/get round-trip through the content-addressed store; whenever the store's
`get` after `put` returns the stored object unchanged, the submitted value is
the original ping response. -/
theorem C10_payload_roundtrip {Hash : Type} (put : List (String × Value) → Hash)
    (get : Hash → List (String × Value)) (m : Value)
    (hrt : ∀ o, get (put o) = o) :
    pingPayloadValue put get m = some m := by
  simp [pingPayloadValue, get_message_from_ipfs, send_message_to_ipfs, hrt,
    List.lookup]

/-- C10 witness: the round-trip theorem applied to the identity store. -/
theorem C10_payload_roundtrip_witness :
    pingPayloadValue (fun o => o) (fun o => o) "pong" = some "pong" :=
  C10_payload_roundtrip (fun o => o) (fun o => o) "pong" (fun _ => rfl)

/-- C8: the `Event` enumeration declares ERROR and TRANSACT, but the transition
table of `NewLearningAbciApp` has no entry for them under any round, so
resolving either event fails with `NoTransitionError`. -/
theorem C8_error_transact_unhandled :
    (∀ r : RoundKind, lookupTransition r Event.ERROR = none ∧
        lookupTransition r Event.TRANSACT = none) ∧
    advance RoundKind.PingRound Event.ERROR
        = Except.error AppError.NoTransitionError ∧
    advance RoundKind.PingRound Event.TRANSACT
        = Except.error AppError.NoTransitionError := by
  decide

/-- C7: if every registered agent has submitted, the submitted values are
pairwise distinct and the threshold exceeds 1, the round resolves
`NO_MAJORITY` and the commit writes nothing to the database (in particular the
selection key is not written). -/
theorem C7_distinct_values_no_majority (A : List AgentID) (t : Nat)
    (l : List (AgentID × Value)) (hApos : 0 < A.length)
    (hl1 : (senders l).Nodup) (hl2 : ∀ a ∈ senders l, a ∈ A)
    (hvals : (vals l).Nodup) (hlen : l.length = A.length) (ht : 1 < t) :
    (processList (initRound A t) l).resolved = some (Event.NO_MAJORITY, none) ∧
    ∀ db : DB, commitRound (processList (initRound A t) l) db = db := by
  have hcnt : ∀ v,
      (vals ([] : List (AgentID × Value))).count v + (vals l).count v < t := by
    intro v
    have h1 : (vals l).count v ≤ 1 := List.nodup_iff_count_le_one.mp hvals v
    have h0 : (vals ([] : List (AgentID × Value))).count v = 0 := rfl
    omega
  have haux := processList_aux_no_majority A t l [] List.nodup_nil
    (by intro a ha; cases ha) hApos hl1 hl2 (by intro a _ hb; cases hb) hcnt
  have hres : (processList ⟨A, t, [], none⟩ l).resolved
      = some (Event.NO_MAJORITY, none) := by
    apply haux.1
    simp only [List.length_nil, Nat.zero_add]
    exact hlen
  constructor
  · exact hres
  · intro db
    exact commitRound_no_majority _ db hres

/-- C7 witness: four agents submit four pairwise-distinct values with
threshold 3: `NO_MAJORITY`, and committing on the empty database writes
nothing. -/
theorem C7_distinct_values_no_majority_witness :
    (processList (initRound agents4 3) scenarioDistinct).resolved
        = some (Event.NO_MAJORITY, none) ∧
    commitRound (processList (initRound agents4 3) scenarioDistinct) [] = [] :=
  ⟨(C7_distinct_values_no_majority agents4 3 scenarioDistinct (by decide)
      (by decide) (by decide) (by decide) rfl (by decide)).1,
   (C7_distinct_values_no_majority agents4 3 scenarioDistinct (by decide)
      (by decide) (by decide) (by decide) rfl (by decide)).2 []⟩

/-- C4 (counterexample): resolution is not invariant under permuting the same
multiset of payload submissions, in two independent ways.  First, with agents
a, b, c and threshold 2, the payload list where agent a resubmits "y" before
b's "y" arrives resolves `DONE` selecting "y", while the permutation where a's
latest value is "x" leaves the round unresolved.  Second, even with
pairwise-distinct senders: with agents a, b, c, d and threshold 2 (not a
strict majority of 4), two value groups can each reach the threshold, and the
two orders resolve `DONE` selecting different values ("x" versus "y"). -/
theorem C4_counterexample :
    (permListB.Perm permListA ∧
      (processList (initRound agents3 2) permListA).resolved
          = some (Event.DONE, some "y") ∧
      (processList (initRound agents3 2) permListB).resolved = none ∧
      (processList (initRound agents3 2) permListA).resolved
          ≠ (processList (initRound agents3 2) permListB).resolved) ∧
    (tieListB.Perm tieListA ∧
      (senders tieListA).Nodup ∧
      (processList (initRound agentsTie 2) tieListA).resolved
          = some (Event.DONE, some "x") ∧
      (processList (initRound agentsTie 2) tieListB).resolved
          = some (Event.DONE, some "y") ∧
      (processList (initRound agentsTie 2) tieListA).resolved
          ≠ (processList (initRound agentsTie 2) tieListB).resolved) := by
  refine ⟨⟨List.Perm.swap ("a", "x") ("a", "y") [("b", "y")], rfl, rfl, ?_⟩,
    ⟨@List.perm_append_comm (AgentID × Value) [("c", "y"), ("d", "y")]
        [("a", "x"), ("b", "x")],
      by decide, rfl, rfl, ?_⟩⟩
  · decide
  · decide

/-- C4 (amended): for payload lists in which each agent submits at most once
(pairwise-distinct senders, all registered) and the threshold is a strict
majority of the registered agents, resolution is permutation-invariant: any
two orders of the same submissions yield the same resolved event and the same
selected value. -/
theorem C4_perm_invariant (A : List AgentID) (t : Nat)
    (l l' : List (AgentID × Value)) (hperm : l.Perm l')
    (hl1 : (senders l).Nodup) (hl2 : ∀ a ∈ senders l, a ∈ A)
    (ht2 : A.length < 2 * t) :
    (processList (initRound A t) l).resolved
      = (processList (initRound A t) l').resolved := by
  have hpermS : (senders l).Perm (senders l') := hperm.map Prod.fst
  have hpermV : (vals l).Perm (vals l') := hperm.map Prod.snd
  have hl1' : (senders l').Nodup := hpermS.nodup_iff.mp hl1
  have hl2' : ∀ a ∈ senders l', a ∈ A := fun a ha =>
    hl2 a (hpermS.mem_iff.mpr ha)
  rcases Nat.eq_zero_or_pos A.length with hA0 | hApos
  · have hAnil : A = [] := List.length_eq_zero.mp hA0
    subst hAnil
    have hlnil : l = [] := by
      cases l with
      | nil => rfl
      | cons p r =>
        exact absurd (hl2 p.1 (by exact List.mem_cons_self p.1 _))
          (List.not_mem_nil p.1)
    subst hlnil
    have hl'nil : l' = [] := hperm.symm.eq_nil
    subst hl'nil
    rfl
  · have htpos : 0 < t := by omega
    have hzero : ∀ v, (vals ([] : List (AgentID × Value))).count v = 0 :=
      fun _ => rfl
    show (processList ⟨A, t, [], none⟩ l).resolved
        = (processList ⟨A, t, [], none⟩ l').resolved
    by_cases hex : ∃ v, t ≤ (vals l).count v
    · obtain ⟨v, hv⟩ := hex
      have h1 := processList_aux_done A t l [] v List.nodup_nil
        (by intro a ha; cases ha) (fun u => by rw [hzero u]; exact htpos)
        hApos hl1 hl2 (by intro a _ hb; cases hb) ht2
        (by rw [hzero v]; omega)
      have hv' : t ≤ (vals l').count v := by
        rw [← hpermV.count_eq]
        exact hv
      have h2 := processList_aux_done A t l' [] v List.nodup_nil
        (by intro a ha; cases ha) (fun u => by rw [hzero u]; exact htpos)
        hApos hl1' hl2' (by intro a _ hb; cases hb) ht2
        (by rw [hzero v]; omega)
      rw [h1, h2]
    · push_neg at hex
      have hcnt : ∀ v,
          (vals ([] : List (AgentID × Value))).count v + (vals l).count v < t :=
        fun v => by rw [hzero v]; have := hex v; omega
      have hcnt' : ∀ v,
          (vals ([] : List (AgentID × Value))).count v
            + (vals l').count v < t := fun v => by
        rw [hzero v, ← hpermV.count_eq]
        have := hex v
        omega
      have hlen_eq : l.length = l'.length := hperm.length_eq
      have hlen_le : l.length ≤ A.length := by
        have h := length_le_of_nodup_subset (senders l) A hl1 hl2
        simpa [senders] using h
      have haux := processList_aux_no_majority A t l [] List.nodup_nil
        (by intro a ha; cases ha) hApos hl1 hl2
        (by intro a _ hb; cases hb) hcnt
      have haux' := processList_aux_no_majority A t l' [] List.nodup_nil
        (by intro a ha; cases ha) hApos hl1' hl2'
        (by intro a _ hb; cases hb) hcnt'
      rcases lt_or_eq_of_le hlen_le with hlt | heq
      · have hl0 : ([] : List (AgentID × Value)).length + l.length < A.length := by
          simp only [List.length_nil, Nat.zero_add]
          exact hlt
        have hl0' : ([] : List (AgentID × Value)).length + l'.length < A.length := by
          simp only [List.length_nil, Nat.zero_add]
          omega
        rw [(haux.2 hl0).1, (haux'.2 hl0').1]
      · have he0 : ([] : List (AgentID × Value)).length + l.length = A.length := by
          simp only [List.length_nil, Nat.zero_add]
          exact heq
        have he0' : ([] : List (AgentID × Value)).length + l'.length = A.length := by
          simp only [List.length_nil, Nat.zero_add]
          omega
        rw [haux.1 he0, haux'.1 he0']

/-- C4 witness: the order-invariance theorem applied to the four-agent
distinct-values scenario and the same list with its first two submissions
swapped. -/
theorem C4_perm_invariant_witness :
    (processList (initRound agents4 3) scenarioDistinct).resolved
      = (processList (initRound agents4 3) scenarioDistinctSwapped).resolved :=
  C4_perm_invariant agents4 3 scenarioDistinct scenarioDistinctSwapped
    (List.Perm.swap ("agent2", "B") ("agent1", "A")
      [("agent3", "C"), ("agent4", "D")])
    (by decide) (by decide) (by decide)

end NewLearningAbci
